import Mathlib

/-!
Shallow embedding of the ViralRecombinant matching pipeline.

The Python sources embedded here are:
* `Code/matching.py` — `read_ped_file`, `read_recombinant_file`,
  `find_matching_pairs`, `summarize_matches`;
* `Code/SNPMatching.py` — the matching stage of `main` (sample-name filter,
  per-sample matching, grouping, spreadsheet rows);
* `Code/tree_utils.py` — `extract_epi_isl` and the annotation loop of
  `color_tree`.

Python dictionaries are modelled as insertion-ordered association lists,
machine integers as `Int`, floating point cell values of the tab-separated
LD table as `ℚ`, and fallible parsing as `Except String`.
-/

set_option maxHeartbeats 1000000

/-- Association-list lookup: first binding for the key, as in a Python dict. -/
def alookup {κ α : Type} [DecidableEq κ] (k : κ) : List (κ × α) → Option α
  | [] => none
  | kv :: rest => if kv.1 = k then some kv.2 else alookup k rest

/-- Python dict assignment `d[k] = v`: replace the first binding in place,
or append a fresh binding at the end (insertion order preserved). -/
def dinsert {κ α : Type} [DecidableEq κ] (k : κ) (v : α) : List (κ × α) → List (κ × α)
  | [] => [(k, v)]
  | kv :: rest => if kv.1 = k then (k, v) :: rest else kv :: dinsert k v rest

/-- Python `d.setdefault(k, []).append(x)` on an insertion-ordered dict of
lists: append `x` to the list at `k`, creating the binding at the end if
absent. -/
def upsertApp {κ α : Type} [DecidableEq κ] (k : κ) (x : α) :
    List (κ × List α) → List (κ × List α)
  | [] => [(k, [x])]
  | kv :: rest =>
    if kv.1 = k then (kv.1, kv.2 ++ [x]) :: rest else kv :: upsertApp k x rest

/-- Fold a list of key/value items into an insertion-ordered dict of lists,
exactly the `setdefault(...).append(...)` loop used in `matching.py`. -/
def groupFold {κ α : Type} [DecidableEq κ] (items : List (κ × α)) :
    List (κ × List α) :=
  items.foldl (fun acc it => upsertApp it.1 it.2 acc) []

/-- The list stored under `k` in a dict of lists, `[]` when absent. -/
def listFor {κ α : Type} [DecidableEq κ] (k : κ) (l : List (κ × List α)) : List α :=
  (alookup k l).getD []

/-- Maximal runs of non-whitespace characters, left to right; `cur` holds the
(reversed) characters of the run being read. -/
def wsTokens : List Char → List Char → List String
  | [], cur => if cur.isEmpty then [] else [String.mk cur.reverse]
  | c :: rest, cur =>
    if c.isWhitespace then
      if cur.isEmpty then wsTokens rest []
      else String.mk cur.reverse :: wsTokens rest []
    else wsTokens rest (c :: cur)

/-- Python `re.split(r"\s+", line.strip())`: the maximal non-whitespace runs
of the line (stripping boundary whitespace does not change those runs), and
the single token `""` when the stripped line is empty, as `re.split` returns
`[""]` there. -/
def tokenize (s : String) : List String :=
  match wsTokens s.data [] with
  | [] => [""]
  | l => l

/-- Value of a list of decimal digit characters. -/
def digitsToNat (cs : List Char) : Nat :=
  cs.foldl (fun n c => 10 * n + (c.toNat - 48)) 0

/-- Python `int(s)` on a whitespace-free token: optional sign followed by a
nonempty run of decimal digits. -/
def pyParseIntChars : List Char → Option Int
  | [] => none
  | '-' :: rest =>
    if !rest.isEmpty && rest.all Char.isDigit then some (-(digitsToNat rest : Int))
    else none
  | '+' :: rest =>
    if !rest.isEmpty && rest.all Char.isDigit then some (digitsToNat rest : Int)
    else none
  | cs =>
    if cs.all Char.isDigit then some (digitsToNat cs : Int) else none

/-- Python `int(s)` on a token. -/
def pyParseInt (s : String) : Option Int := pyParseIntChars s.data

/-- Python `str.lower()` (over the ASCII range the header labels use). -/
def pyLower (s : String) : String := String.mk (s.data.map Char.toLower)

/-- Python `int(x)` on a float: truncation toward zero. -/
def truncInt (q : ℚ) : Int := if 0 ≤ q then ⌊q⌋ else ⌈q⌉

/-- Lexicographic order on pairs, the order Python's `sorted` uses on
2-tuples of ints. -/
def pairLe (a b : Int × Int) : Prop := a.1 < b.1 ∨ (a.1 = b.1 ∧ a.2 ≤ b.2)

instance : DecidableRel pairLe := fun a b =>
  inferInstanceAs (Decidable (a.1 < b.1 ∨ (a.1 = b.1 ∧ a.2 ≤ b.2)))

instance : IsTotal (Int × Int) pairLe := by
  constructor
  intro a b
  rcases lt_trichotomy a.1 b.1 with h | h | h
  · exact Or.inl (Or.inl h)
  · rcases le_total a.2 b.2 with h2 | h2
    · exact Or.inl (Or.inr ⟨h, h2⟩)
    · exact Or.inr (Or.inr ⟨h.symm, h2⟩)
  · exact Or.inr (Or.inl h)

instance : IsTrans (Int × Int) pairLe := by
  constructor
  intro a b c hab hbc
  rcases hab with h1 | ⟨h1, h1'⟩
  · rcases hbc with h2 | ⟨h2, _⟩
    · exact Or.inl (h1.trans h2)
    · exact Or.inl (h2 ▸ h1)
  · rcases hbc with h2 | ⟨h2, h2'⟩
    · exact Or.inl (h1 ▸ h2)
    · exact Or.inr ⟨h1.trans h2, h1'.trans h2'⟩

/-! ## `matching.py`: `read_ped_file` -/

/-- A per-sample genotype record: SNP position → genotype call. -/
abbrev GenoRecord := List (Int × Int)

/-- A PED table: sample name → genotype record, in insertion order. -/
abbrev SampleData := List (String × GenoRecord)

/-- The duplicate-position index of `read_ped_file` (`pos_indices`): each
distinct header position, in first-occurrence order, with the list of column
indices where it appears. -/
def pos_indices (positions : List Int) : List (Int × List Nat) :=
  groupFold (positions.enum.map (fun ip => (ip.2, ip.1)))

/-- The merged per-sample mapping of `read_ped_file`: one entry per distinct
position, whose call is `int(any(values[i] for i in idxs))`. -/
def merged_record (positions : List Int) (values : List Int) : GenoRecord :=
  (pos_indices positions).map
    (fun pidx => (pidx.1, if pidx.2.any (fun i => decide (values.getD i 0 ≠ 0)) then 1 else 0))

/-- One iteration of the data-line loop of `read_ped_file`: skip the line on
a token-count mismatch or a call token that fails `int`, otherwise store the
merged record under the sample name. -/
def process_line (positions : List Int) (sd : SampleData) (line : String) : SampleData :=
  if (tokenize line).length ≠ positions.length + 1 then sd
  else
    match (tokenize line).tail.mapM pyParseInt with
    | none => sd
    | some values =>
      dinsert ((tokenize line).headD "") (merged_record positions values) sd

/-- Header parsing of `read_ped_file`: first token must case-insensitively
equal the expected label, remaining tokens must all parse as ints. -/
def parse_header (line : String) (ped_header : String) : Except String (List Int) :=
  if pyLower ((tokenize line).headD "") ≠ pyLower ped_header then
    Except.error "Invalid ped.txt format: wrong first column"
  else
    match (tokenize line).tail.mapM pyParseInt with
    | none => Except.error "invalid literal for int in header"
    | some positions => Except.ok positions

/-- `read_ped_file` from `matching.py`, over the list of lines of the file. -/
def read_ped_file (lines : List String) (ped_header : String) :
    Except String SampleData :=
  match lines with
  | [] => Except.error "ped.txt is empty"
  | first :: rest =>
    match parse_header first ped_header with
    | Except.error e => Except.error e
    | Except.ok positions => Except.ok (rest.foldl (process_line positions) [])

/-! ## `matching.py`: `read_recombinant_file` -/

/-- The LD input as handed to `pd.read_csv`: the full header row of column
names, and per row the cell values by column name; `none` stands for a cell
that `int`/`float` would reject. `read_csv(..., usecols=range(9))` keeps
the first nine columns and raises when fewer exist. -/
structure LDTable where
  columns : List String
  rows : List (List (String × Option ℚ))

/-- Reading one cell of a dataframe row: a missing or unparseable cell gives
`none` (raising `ValueError`/`KeyError` in the Python row loop). -/
def getCell (row : List (String × Option ℚ)) (c : String) : Option ℚ :=
  (alookup c row).getD none

/-- One iteration of the row loop of `read_recombinant_file`, including the
Python truthiness test `if CIHi_filter and cihi < CIHi_filter`. -/
def ld_row_step (CIHi_filter : Option ℚ) (acc : List (Int × Int))
    (row : List (String × Option ℚ)) : List (Int × Int) :=
  match getCell row "L1", getCell row "L2", getCell row "CIhi" with
  | some q1, some q2, some qc =>
    match CIHi_filter with
    | some f => if f ≠ 0 ∧ qc < f then acc else acc ++ [(truncInt q1, truncInt q2)]
    | none => acc ++ [(truncInt q1, truncInt q2)]
  | _, _, _ => acc

/-- `read_recombinant_file` from `matching.py`, including the
`pd.read_csv(..., sep="\t", usecols=range(9))` step: reading raises when the
file has fewer than nine columns; otherwise the first nine columns form the
dataframe, which must contain `L1`, `L2` and `CIhi`. -/
def read_recombinant_file (tbl : LDTable) (CIHi_filter : Option ℚ) :
    Except String (List (Int × Int)) :=
  if tbl.columns.length < 9 then
    Except.error "Usecols do not match columns, columns expected but not found"
  else if "L1" ∈ tbl.columns.take 9 ∧ "L2" ∈ tbl.columns.take 9 ∧
      "CIhi" ∈ tbl.columns.take 9 then
    Except.ok (tbl.rows.foldl (ld_row_step CIHi_filter) [])
  else Except.error "recombinant_file must contain columns: L1, L2, CIhi"

/-! ## `matching.py`: `find_matching_pairs` -/

/-- Python `sample_dict.get(p, 0)`: the sample's call at a position, with a
missing position read as 0. -/
def dget (g : GenoRecord) (p : Int) : Int := (alookup p g).getD 0

/-- Python `sorted(sample_data.keys())`. -/
def sortedKeys (sd : SampleData) : List String :=
  List.insertionSort (fun a b => a ≤ b) (sd.map Prod.fst)

/-- The inner loop of `find_matching_pairs` for one sample: collect the pairs
whose two positions both have call 1, then sort the collection. -/
def match_set (g : GenoRecord) (pairs : List (Int × Int)) : List (Int × Int) :=
  List.insertionSort pairLe
    (pairs.filter (fun q => decide (dget g q.1 = 1 ∧ dget g q.2 = 1)))

/-- `find_matching_pairs` from `matching.py`: sample name → sorted match-set,
iterating samples in sorted-name order. -/
def find_matching_pairs (sd : SampleData) (pairs : List (Int × Int)) :
    List (String × List (Int × Int)) :=
  (sortedKeys sd).map (fun n => (n, match_set ((alookup n sd).getD []) pairs))

/-! ## `tree_utils.py`: `extract_epi_isl` -/

/-- The fixed character pattern `EPI_ISL_` of the identifier regex. -/
def epiPat : List Char := ['E', 'P', 'I', '_', 'I', 'S', 'L', '_']

/-- A match of `EPI_ISL_\d+` anchored at the start of `cs`: the pattern
characters followed by the (greedy, nonempty) run of digits. -/
def matchEpiAt (cs : List Char) : Option String :=
  if epiPat.isPrefixOf cs then
    let ds := (cs.drop 8).takeWhile Char.isDigit
    if ds.isEmpty then none else some (String.mk (epiPat ++ ds))
  else none

/-- Leftmost search for `EPI_ISL_\d+`, as `re.search` performs it. -/
def searchEpi : List Char → Option String
  | [] => none
  | c :: rest =>
    match matchEpiAt (c :: rest) with
    | some r => some r
    | none => searchEpi rest

/-- `extract_epi_isl` from `tree_utils.py`. -/
def extract_epi_isl (s : String) : Option String := searchEpi s.data

/-! ## `matching.py`: `summarize_matches` -/

/-- One row of the summary dataframe. -/
structure SummaryRow where
  epiIsl : Option String
  sample : String
  numPairs : Nat
  unique : String
  pairIdents : String
  sharedWith : String
  phyloTime : String
deriving DecidableEq

/-- The inverse grouping `pairs_to_samples` of `summarize_matches`: match-set
→ the samples carrying it, keys in first-occurrence order. -/
def pairs_to_samples (stp : List (String × List (Int × Int))) :
    List (List (Int × Int) × List String) :=
  groupFold (stp.map (fun sp => (sp.2, sp.1)))

/-- The display text `f"L1={l1}, L2={l2}"` for one pair. -/
def pair_text (q : Int × Int) : String :=
  "L1=" ++ toString q.1 ++ ", L2=" ++ toString q.2

/-- One summary row, built from a group `(pair_set, samples)` for one of the
group's samples, exactly as the row loop of `summarize_matches` does. -/
def mk_summary_row (pt : Option (List (String × String)))
    (gl : List (Int × Int) × List String) (s : String) : SummaryRow :=
  let epi := extract_epi_isl s
  { epiIsl := epi
    sample := s
    numPairs := gl.1.length
    unique := if gl.2.length = 1 then "Yes" else "No"
    pairIdents := String.intercalate "; " (gl.1.map pair_text)
    sharedWith := if gl.2.length = 1 then "" else String.intercalate ", " gl.2
    phyloTime :=
      match pt with
      | none => ""
      | some m =>
        match epi with
        | none => ""
        | some e => (alookup e m).getD "" }

/-- `summarize_matches` from `matching.py`: group by match-set, then one row
per sample of each group, groups in first-occurrence order. -/
def summarize_matches (stp : List (String × List (Int × Int)))
    (pt : Option (List (String × String))) : List SummaryRow :=
  (pairs_to_samples stp).flatMap (fun gl => gl.2.map (mk_summary_row pt gl))

/-- The matching stage of `run_matching.py`: parse both inputs, then match
and summarize; each parser's fatal error aborts the run before matching. -/
def pipeline (pedLines : List String) (tbl : LDTable) (t : Option ℚ)
    (pt : Option (List (String × String))) : Except String (List SummaryRow) :=
  match read_ped_file pedLines "Position" with
  | Except.error e => Except.error e
  | Except.ok sd =>
    match read_recombinant_file tbl t with
    | Except.error e => Except.error e
    | Except.ok ps => Except.ok (summarize_matches (find_matching_pairs sd ps) pt)

/-! ## `SNPMatching.py`: the matching stage of `main` -/

/-- The sample-name gate of `SNPMatching.main`: keep a name exactly when it
starts with `Sample` and the rest parses as an int in `1..213`. -/
def snp_filter (s : String) : Bool :=
  "Sample".data.isPrefixOf s.data &&
    (match pyParseIntChars (s.data.drop 6) with
     | some n => decide (1 ≤ n) && decide (n ≤ 213)
     | none => false)

/-- The `sample_to_pairs` dict of `SNPMatching.main`: sorted sample names,
gated by `snp_filter`, each mapped to its sorted match-set. -/
def snp_sample_to_pairs (sd : SampleData) (pairs : List (Int × Int)) :
    List (String × List (Int × Int)) :=
  ((sortedKeys sd).filter snp_filter).map
    (fun n => (n, match_set ((alookup n sd).getD []) pairs))

/-- One row of the spreadsheet output of `SNPMatching.main`. -/
structure ExcelRow where
  sample : String
  numPairs : Nat
  unique : String
  pairIdents : String
  sharedWith : String
deriving DecidableEq

/-- One spreadsheet row of `SNPMatching.main` for one sample of a group. -/
def mk_excel_row (gl : List (Int × Int) × List String) (s : String) : ExcelRow :=
  { sample := s
    numPairs := gl.1.length
    unique := if gl.2.length = 1 then "Yes" else "No"
    pairIdents := String.intercalate "; " (gl.1.map pair_text)
    sharedWith := if gl.2.length = 1 then "" else String.intercalate ", " gl.2 }

/-- The `excel_data` rows of `SNPMatching.main`. -/
def snp_rows (sd : SampleData) (pairs : List (Int × Int)) : List ExcelRow :=
  (pairs_to_samples (snp_sample_to_pairs sd pairs)).flatMap
    (fun gl => gl.2.map (mk_excel_row gl))

/-! ## `tree_utils.py`: the annotation loop of `color_tree` -/

/-- The annotation loop of `color_tree` over the terminal leaf names: a leaf
without an extractable identifier is passed over; otherwise the summary row
with that identifier is looked up (`None` when the identifier is not in the
index) and `.lower()` is called on the result unconditionally, an
`AttributeError` when it is `None`. -/
def color_tree_go (rows : List SummaryRow) : List String →
    Except String (List (String × Option String))
  | [] => Except.ok []
  | leaf :: rest =>
    match extract_epi_isl leaf with
    | none => (color_tree_go rows rest).map (fun out => (leaf, none) :: out)
    | some id =>
      match rows.find? (fun r => decide (r.epiIsl = some id)) with
      | none => Except.error "AttributeError: NoneType has no attribute lower"
      | some r =>
        (color_tree_go rows rest).map
          (fun out =>
            (leaf, if r.unique.toLower = "yes"
                   then some "&color=#FF0000" else none) :: out)

/-- `color_tree` from `tree_utils.py`, restricted to the branch-comment
computation: summary rows plus leaf names in, per-leaf comment out. -/
def color_tree (rows : List SummaryRow) (leaves : List String) :
    Except String (List (String × Option String)) :=
  color_tree_go rows leaves

/-! ## Helper lemmas on association lists and grouping -/

theorem alookup_mem {κ α : Type} [DecidableEq κ] {k : κ} {v : α}
    {l : List (κ × α)} (h : alookup k l = some v) : (k, v) ∈ l := by
  induction l with
  | nil => simp [alookup] at h
  | cons kv rest ih =>
    rw [alookup] at h
    split at h
    · rename_i hk
      cases h
      subst hk
      exact List.mem_cons_self _ _
    · exact List.mem_cons_of_mem _ (ih h)

theorem mem_alookup {κ α : Type} [DecidableEq κ] {k : κ} {v : α}
    {l : List (κ × α)} (hnd : (l.map Prod.fst).Nodup) (h : (k, v) ∈ l) :
    alookup k l = some v := by
  induction l with
  | nil => simp at h
  | cons kv rest ih =>
    simp only [List.map_cons, List.nodup_cons] at hnd
    rcases List.mem_cons.mp h with h | h
    · subst h
      simp [alookup]
    · rw [alookup]
      split
      · rename_i hk
        exfalso
        apply hnd.1
        have hmem : ((k, v) : κ × α).1 ∈ rest.map Prod.fst :=
          List.mem_map_of_mem Prod.fst h
        rw [hk]
        exact hmem
      · exact ih hnd.2 h

theorem alookup_eq_none_iff {κ α : Type} [DecidableEq κ] {k : κ}
    {l : List (κ × α)} : alookup k l = none ↔ k ∉ l.map Prod.fst := by
  induction l with
  | nil => simp [alookup]
  | cons kv rest ih =>
    rw [alookup]
    split
    · rename_i hk
      subst hk
      simp
    · rename_i hk
      simp only [List.map_cons, List.mem_cons]
      constructor
      · intro h hc
        rcases hc with hc | hc
        · exact hk hc.symm
        · exact (ih.mp h) hc
      · intro h
        exact ih.mpr (fun hc => h (Or.inr hc))

theorem alookup_map_key {κ α : Type} [DecidableEq κ] {k : κ} {ns : List κ}
    (f : κ → α) (h : k ∈ ns) :
    alookup k (ns.map (fun n => (n, f n))) = some (f k) := by
  induction ns with
  | nil => simp at h
  | cons n rest ih =>
    rw [List.map_cons, alookup]
    by_cases hk : n = k
    · subst hk
      simp
    · simp only [hk, if_false]
      exact ih (by rcases List.mem_cons.mp h with h | h
                   · exact absurd h.symm hk
                   · exact h)

theorem alookup_upsertApp {κ α : Type} [DecidableEq κ] (k g : κ) (x : α)
    (acc : List (κ × List α)) :
    alookup g (upsertApp k x acc) =
      if k = g then some (listFor g acc ++ [x]) else alookup g acc := by
  induction acc with
  | nil =>
    by_cases hk : k = g <;> simp [upsertApp, alookup, listFor, hk]
  | cons kv rest ih =>
    by_cases h1 : kv.1 = k
    · rw [upsertApp, if_pos h1]
      by_cases h2 : k = g
      · subst h2
        simp [alookup, h1, listFor]
      · have h3 : kv.1 ≠ g := by rw [h1]; exact h2
        simp [alookup, h3, h2]
    · rw [upsertApp, if_neg h1]
      by_cases h2 : kv.1 = g
      · have h3 : ¬ k = g := by rw [← h2]; exact fun hc => h1 hc.symm
        simp [alookup, h2, h3]
      · simp only [alookup, h2, if_false, ih, listFor]

theorem listFor_upsertApp {κ α : Type} [DecidableEq κ] (k g : κ) (x : α)
    (acc : List (κ × List α)) :
    listFor g (upsertApp k x acc) =
      listFor g acc ++ (if k = g then [x] else []) := by
  rw [listFor, alookup_upsertApp]
  by_cases h : k = g <;> simp [h, listFor]

theorem upsertApp_keys {κ α : Type} [DecidableEq κ] (k : κ) (x : α)
    (acc : List (κ × List α)) :
    (upsertApp k x acc).map Prod.fst =
      if k ∈ acc.map Prod.fst then acc.map Prod.fst
      else acc.map Prod.fst ++ [k] := by
  induction acc with
  | nil => simp [upsertApp]
  | cons kv rest ih =>
    rw [upsertApp]
    by_cases h1 : kv.1 = k
    · simp [h1]
    · have h1' : k ≠ kv.1 := fun hc => h1 hc.symm
      by_cases h2 : k ∈ rest.map Prod.fst <;>
        simp [h1, h1', h2, ih]

theorem upsertApp_keys_nodup {κ α : Type} [DecidableEq κ] (k : κ) (x : α)
    {acc : List (κ × List α)} (h : (acc.map Prod.fst).Nodup) :
    ((upsertApp k x acc).map Prod.fst).Nodup := by
  rw [upsertApp_keys]
  split
  · exact h
  · rename_i hk
    simp [List.nodup_append, h, hk]

theorem foldl_upsert_listFor {κ α : Type} [DecidableEq κ]
    (items : List (κ × α)) :
    ∀ (acc : List (κ × List α)) (g : κ),
      listFor g (items.foldl (fun a it => upsertApp it.1 it.2 a) acc) =
        listFor g acc ++ (items.filter (fun it => decide (it.1 = g))).map Prod.snd := by
  induction items with
  | nil => intro acc g; simp
  | cons it rest ih =>
    intro acc g
    rw [List.foldl_cons, ih, listFor_upsertApp, List.filter_cons]
    by_cases h : it.1 = g <;> simp [h]

theorem groupFold_listFor {κ α : Type} [DecidableEq κ]
    (items : List (κ × α)) (g : κ) :
    listFor g (groupFold items) =
      (items.filter (fun it => decide (it.1 = g))).map Prod.snd := by
  rw [groupFold, foldl_upsert_listFor]
  simp [listFor, alookup]

theorem foldl_upsert_keys_mem {κ α : Type} [DecidableEq κ]
    (items : List (κ × α)) :
    ∀ (acc : List (κ × List α)) (g : κ),
      g ∈ (items.foldl (fun a it => upsertApp it.1 it.2 a) acc).map Prod.fst ↔
        g ∈ acc.map Prod.fst ∨ g ∈ items.map Prod.fst := by
  induction items with
  | nil => intro acc g; simp
  | cons it rest ih =>
    intro acc g
    rw [List.foldl_cons, ih, upsertApp_keys]
    have hsymm : ∀ a b : κ, a = b ↔ b = a := fun a b => eq_comm
    by_cases h : it.1 ∈ acc.map Prod.fst <;>
      simp only [h, if_true, if_false, List.mem_append, List.map_cons,
        List.mem_cons, List.mem_singleton] <;>
      constructor <;> intro hc
    · tauto
    · rcases hc with hc | hc | hc
      · tauto
      · subst hc; tauto
      · tauto
    · tauto
    · rcases hc with hc | hc | hc
      · tauto
      · subst hc; tauto
      · tauto

theorem groupFold_keys_mem {κ α : Type} [DecidableEq κ]
    (items : List (κ × α)) (g : κ) :
    g ∈ (groupFold items).map Prod.fst ↔ g ∈ items.map Prod.fst := by
  rw [groupFold, foldl_upsert_keys_mem]
  simp

theorem foldl_upsert_keys_nodup {κ α : Type} [DecidableEq κ]
    (items : List (κ × α)) :
    ∀ (acc : List (κ × List α)), (acc.map Prod.fst).Nodup →
      ((items.foldl (fun a it => upsertApp it.1 it.2 a) acc).map Prod.fst).Nodup := by
  induction items with
  | nil => intro acc h; simpa using h
  | cons it rest ih =>
    intro acc h
    rw [List.foldl_cons]
    exact ih _ (upsertApp_keys_nodup _ _ h)

theorem groupFold_keys_nodup {κ α : Type} [DecidableEq κ]
    (items : List (κ × α)) : ((groupFold items).map Prod.fst).Nodup := by
  rw [groupFold]
  exact foldl_upsert_keys_nodup items [] (by simp)

/-! ## Occurrence counting over grouped values -/

/-- All values of a dict of lists, flattened in insertion order. -/
def flattenVals {κ α : Type} (l : List (κ × List α)) : List α :=
  (l.map Prod.snd).flatten

/-- Number of occurrences of `x` in `l`. -/
def occ {α : Type} [DecidableEq α] (x : α) (l : List α) : Nat :=
  (l.filter (fun y => decide (y = x))).length

theorem occ_cons {α : Type} [DecidableEq α] (x a : α) (t : List α) :
    occ x (a :: t) = (if a = x then 1 else 0) + occ x t := by
  by_cases h : a = x <;> simp [occ, List.filter_cons, h, Nat.add_comm]

theorem occ_append {α : Type} [DecidableEq α] (x : α) (l1 l2 : List α) :
    occ x (l1 ++ l2) = occ x l1 + occ x l2 := by
  simp [occ, List.filter_append]

theorem occ_eq_zero_iff {α : Type} [DecidableEq α] (x : α) (l : List α) :
    occ x l = 0 ↔ x ∉ l := by
  induction l with
  | nil => simp [occ]
  | cons a t ih =>
    rw [occ_cons]
    by_cases h : a = x
    · subst h
      simp
    · simp only [h, if_false, Nat.zero_add, ih, List.mem_cons]
      constructor
      · intro hn hc
        rcases hc with hc | hc
        · exact h hc.symm
        · exact hn hc
      · intro hn
        exact fun hc => hn (Or.inr hc)

theorem occ_nodup {α : Type} [DecidableEq α] {x : α} {l : List α}
    (hnd : l.Nodup) (hx : x ∈ l) : occ x l = 1 := by
  induction l with
  | nil => simp at hx
  | cons a t ih =>
    rw [occ_cons]
    rcases List.mem_cons.mp hx with h | h
    · subst h
      rw [if_pos rfl, (occ_eq_zero_iff _ _).mpr (List.nodup_cons.mp hnd).1]
    · rw [if_neg (fun hc => (List.nodup_cons.mp hnd).1 (by rw [hc]; exact h)),
        ih (List.nodup_cons.mp hnd).2 h]

theorem occ_flattenVals_upsertApp {κ α : Type} [DecidableEq κ] [DecidableEq α]
    (s : α) (k : κ) (x : α) (acc : List (κ × List α)) :
    occ s (flattenVals (upsertApp k x acc)) =
      occ s (flattenVals acc) + occ s [x] := by
  induction acc with
  | nil => simp [upsertApp, flattenVals, occ_append, occ]
  | cons kv rest ih =>
    rw [upsertApp]
    by_cases h : kv.1 = k
    · rw [if_pos h]
      show occ s ((kv.2 ++ [x]) ++ flattenVals rest) =
        occ s (kv.2 ++ flattenVals rest) + occ s [x]
      rw [occ_append, occ_append, occ_append]
      omega
    · rw [if_neg h]
      show occ s (kv.2 ++ flattenVals (upsertApp k x rest)) =
        occ s (kv.2 ++ flattenVals rest) + occ s [x]
      rw [occ_append, occ_append, ih]
      omega

theorem occ_flattenVals_foldl {κ α : Type} [DecidableEq κ] [DecidableEq α]
    (s : α) (items : List (κ × α)) :
    ∀ acc : List (κ × List α),
      occ s (flattenVals (items.foldl (fun a it => upsertApp it.1 it.2 a) acc)) =
        occ s (flattenVals acc) + occ s (items.map Prod.snd) := by
  induction items with
  | nil => intro acc; simp [occ]
  | cons it rest ih =>
    intro acc
    rw [List.foldl_cons, ih, occ_flattenVals_upsertApp, List.map_cons,
      occ_cons, occ_cons]
    by_cases h : it.2 = s <;> simp [h, occ] <;> omega

theorem groupFold_occ {κ α : Type} [DecidableEq κ] [DecidableEq α]
    (s : α) (items : List (κ × α)) :
    occ s (flattenVals (groupFold items)) = occ s (items.map Prod.snd) := by
  rw [groupFold, occ_flattenVals_foldl]
  simp [flattenVals, occ]

/-! ## Lemmas about the per-group row emission -/

theorem map_filter_sample {ρ : Type} (f : String → ρ) (sampleOf : ρ → String)
    (hm : ∀ s, sampleOf (f s) = s) (l : List String) (s : String) :
    ((l.map f).filter (fun r => decide (sampleOf r = s))).length = occ s l := by
  induction l with
  | nil => simp [occ]
  | cons a t ih =>
    rw [List.map_cons, List.filter_cons, occ_cons]
    by_cases h : a = s
    · subst h
      rw [if_pos (by simp [hm]), List.length_cons, ih]
      simp [Nat.add_comm]
    · rw [if_neg (by simp [hm, h]), ih, if_neg h]
      omega

theorem rows_filter_length {ρ : Type}
    (mkR : (List (Int × Int) × List String) → String → ρ)
    (sampleOf : ρ → String) (hm : ∀ gl s, sampleOf (mkR gl s) = s)
    (groups : List ((List (Int × Int)) × List String)) (s : String) :
    ((groups.flatMap (fun gl => gl.2.map (mkR gl))).filter
        (fun r => decide (sampleOf r = s))).length =
      occ s (flattenVals groups) := by
  induction groups with
  | nil => simp [flattenVals, occ]
  | cons gl rest ih =>
    rw [List.flatMap_cons, List.filter_append, List.length_append, ih]
    show _ + _ = occ s (gl.2 ++ flattenVals rest)
    rw [occ_append, map_filter_sample (mkR gl) sampleOf (hm gl)]

theorem rows_mem_sample {ρ : Type}
    (mkR : (List (Int × Int) × List String) → String → ρ)
    (sampleOf : ρ → String) (hm : ∀ gl s, sampleOf (mkR gl s) = s)
    (groups : List ((List (Int × Int)) × List String)) (s : String) :
    (∃ r ∈ groups.flatMap (fun gl => gl.2.map (mkR gl)), sampleOf r = s) ↔
      ∃ gl ∈ groups, s ∈ gl.2 := by
  constructor
  · rintro ⟨r, hr, hs⟩
    obtain ⟨gl, hgl, hrg⟩ := List.mem_flatMap.mp hr
    obtain ⟨x, hx, hxr⟩ := List.mem_map.mp hrg
    refine ⟨gl, hgl, ?_⟩
    have : x = s := by rw [← hs, ← hxr, hm]
    exact this ▸ hx
  · rintro ⟨gl, hgl, hs⟩
    exact ⟨mkR gl s,
      List.mem_flatMap.mpr ⟨gl, hgl, List.mem_map_of_mem _ hs⟩, hm gl s⟩

theorem groupFold_exists_val {κ α : Type} [DecidableEq κ]
    (items : List (κ × α)) (s : α) :
    (∃ gl ∈ groupFold items, s ∈ gl.2) ↔ s ∈ items.map Prod.snd := by
  constructor
  · rintro ⟨gl, hgl, hs⟩
    have hl : alookup gl.1 (groupFold items) = some gl.2 :=
      mem_alookup (groupFold_keys_nodup items) hgl
    have hval : gl.2 = (items.filter (fun it => decide (it.1 = gl.1))).map Prod.snd := by
      have := groupFold_listFor items gl.1
      rw [listFor, hl] at this
      exact this
    rw [hval] at hs
    obtain ⟨it, hit, hits⟩ := List.mem_map.mp hs
    exact hits ▸ List.mem_map_of_mem Prod.snd (List.mem_of_mem_filter hit)
  · intro hs
    obtain ⟨it, hit, hits⟩ := List.mem_map.mp hs
    have h1 : s ∈ listFor it.1 (groupFold items) := by
      rw [groupFold_listFor]
      refine List.mem_map.mpr ⟨it, ?_, hits⟩
      exact List.mem_filter.mpr ⟨hit, by simp⟩
    rw [listFor] at h1
    cases hl : alookup it.1 (groupFold items) with
    | none => rw [hl] at h1; simp at h1
    | some L =>
      rw [hl] at h1
      exact ⟨(it.1, L), alookup_mem hl, h1⟩

/-! ## Claim C1 -/

/-- C1: for every genotype table and every pair list, and for every sample in
the table, a pair from the pair list is in the sample's match-set iff the
sample's genotype record has call 1 at both of its positions, a position
absent from the record reading as call 0; and the match-set is sorted. -/
theorem C1_match_set_sound_complete :
    ∀ (sd : SampleData) (pairs : List (Int × Int)) (s : String) (g : GenoRecord),
      alookup s sd = some g →
      ∃ ms, alookup s (find_matching_pairs sd pairs) = some ms ∧
        (∀ p : Int × Int, p ∈ ms ↔ p ∈ pairs ∧ dget g p.1 = 1 ∧ dget g p.2 = 1) ∧
        List.Sorted pairLe ms := by
  intro sd pairs s g hg
  have hmem : s ∈ sortedKeys sd := by
    have h1 : ((s, g) : String × GenoRecord).1 ∈ sd.map Prod.fst :=
      List.mem_map_of_mem Prod.fst (alookup_mem hg)
    exact ((List.perm_insertionSort _ _).mem_iff).mpr h1
  refine ⟨match_set ((alookup s sd).getD []) pairs, ?_, ?_, ?_⟩
  · rw [find_matching_pairs]
    exact alookup_map_key _ hmem
  · intro p
    rw [hg]
    show p ∈ match_set g pairs ↔ _
    rw [match_set]
    rw [(List.perm_insertionSort pairLe _).mem_iff, List.mem_filter]
    simp
  · exact List.sorted_insertionSort pairLe _

/-- Witness for C1 at a concrete one-sample table and two-pair list. -/
theorem C1_witness :
    alookup "A" ([("A", [((10 : Int), (1 : Int)), (20, 1)])] : SampleData)
        = some [(10, 1), (20, 1)] ∧
    ∃ ms, alookup "A"
        (find_matching_pairs [("A", [(10, 1), (20, 1)])] [(10, 20), (20, 30)])
          = some ms ∧
      (∀ p : Int × Int,
        p ∈ ms ↔ p ∈ [((10 : Int), (20 : Int)), (20, 30)] ∧
          dget [(10, 1), (20, 1)] p.1 = 1 ∧ dget [(10, 1), (20, 1)] p.2 = 1) ∧
      List.Sorted pairLe ms :=
  ⟨by decide, C1_match_set_sound_complete _ _ _ _ (by decide)⟩

/-! ## Claim C4 -/

theorem alookup_map_val {κ α β : Type} [DecidableEq κ] (f : α → β)
    (l : List (κ × α)) (k : κ) :
    alookup k (l.map (fun kv => (kv.1, f kv.2))) = (alookup k l).map f := by
  induction l with
  | nil => simp [alookup]
  | cons kv rest ih =>
    rw [List.map_cons, alookup, alookup]
    by_cases h : kv.1 = k
    · subst h
      simp
    · simp [h, ih]

theorem alookup_isSome_of_mem_keys {κ α : Type} [DecidableEq κ] {k : κ}
    {l : List (κ × α)} (h : k ∈ l.map Prod.fst) : ∃ v, alookup k l = some v := by
  cases hl : alookup k l with
  | none => exact absurd h (alookup_eq_none_iff.mp hl)
  | some v => exact ⟨v, rfl⟩

theorem mem_enum_snd (l : List Int) (p : Int) :
    p ∈ l.enum.map (fun ip => ip.2) ↔ p ∈ l := by
  constructor
  · intro h
    obtain ⟨ip, hip, hp⟩ := List.mem_map.mp h
    exact hp ▸ List.mem_iff_get?.mpr ⟨ip.1, List.mem_enum_iff_get?.mp hip⟩
  · intro h
    obtain ⟨i, hi⟩ := List.mem_iff_get?.mp h
    exact List.mem_map.mpr ⟨(i, p), List.mk_mem_enum_iff_get?.mpr hi, rfl⟩

theorem mem_pos_indices_iff (positions : List Int) (p : Int) (i : Nat) :
    i ∈ listFor p (pos_indices positions) ↔ (i, p) ∈ positions.enum := by
  rw [pos_indices, groupFold_listFor]
  simp only [List.mem_map, List.mem_filter, decide_eq_true_eq]
  constructor
  · rintro ⟨it, ⟨⟨⟨ii, pp⟩, hip, rfl⟩, h1⟩, rfl⟩
    simp only at h1
    subst h1
    exact hip
  · intro h
    exact ⟨(p, i), ⟨⟨(i, p), h, rfl⟩, rfl⟩, rfl⟩

theorem getD_zero_or_one {values : List Int}
    (hv : ∀ v ∈ values, v = 0 ∨ v = 1) (i : Nat) :
    values.getD i 0 = 0 ∨ values.getD i 0 = 1 := by
  by_cases h : i < values.length
  · have hs : ∃ a, values.get? i = some a := by
      rw [List.get?_eq_get h]
      exact ⟨_, rfl⟩
    obtain ⟨a, ha⟩ := hs
    have hd : values.getD i 0 = a := by
      rw [List.getD_eq_getD_get? values 0 i, ha]
      rfl
    rw [hd]
    exact hv a (List.get?_mem ha)
  · left
    exact List.getD_eq_default _ _ (Nat.le_of_not_lt h)

/-- In `matching.py`'s reader, when the header repeats a position, the
per-sample mapping has exactly one entry for that position, whose call is
the logical OR of the calls in all columns carrying that position: it is 1
exactly when some column with that position has call 1, and 0 otherwise. -/
theorem merged_record_or :
    ∀ (positions values : List Int) (p : Int),
      p ∈ positions → (∀ v ∈ values, v = 0 ∨ v = 1) →
      occ p ((merged_record positions values).map Prod.fst) = 1 ∧
      (alookup p (merged_record positions values) = some 1 ∨
       alookup p (merged_record positions values) = some 0) ∧
      (alookup p (merged_record positions values) = some 1 ↔
        ∃ i, i < positions.length ∧ positions.getD i 0 = p ∧ values.getD i 0 = 1) := by
  intro positions values p hp hv
  have hpin : p ∈ (pos_indices positions).map Prod.fst := by
    rw [pos_indices, groupFold_keys_mem, List.map_map]
    show p ∈ positions.enum.map (fun ip => ip.2)
    exact (mem_enum_snd positions p).mpr hp
  have hkeys : (merged_record positions values).map Prod.fst =
      (pos_indices positions).map Prod.fst := by
    rw [merged_record, List.map_map]
    rfl
  obtain ⟨idxs, hidxs⟩ := alookup_isSome_of_mem_keys hpin
  have hmr : alookup p (merged_record positions values) =
      some (if idxs.any (fun i => decide (values.getD i 0 ≠ 0)) then 1 else 0) := by
    have h2 := alookup_map_val
      (fun idxs : List Nat =>
        (if idxs.any (fun i => decide (values.getD i 0 ≠ 0)) then 1 else 0 : Int))
      (pos_indices positions) p
    rw [hidxs] at h2
    exact h2
  have hfor : listFor p (pos_indices positions) = idxs := by
    rw [listFor, hidxs]
    rfl
  refine ⟨?_, ?_, ?_⟩
  · rw [hkeys]
    exact occ_nodup (groupFold_keys_nodup _) hpin
  · rw [hmr]
    by_cases h : idxs.any (fun i => decide (values.getD i 0 ≠ 0)) = true
    · rw [if_pos h]
      exact Or.inl rfl
    · rw [if_neg h]
      exact Or.inr rfl
  · rw [hmr]
    constructor
    · intro h1
      by_cases hc : idxs.any (fun i => decide (values.getD i 0 ≠ 0)) = true
      · obtain ⟨i, hi, hvi⟩ := List.any_eq_true.mp hc
        have hvi' : values.getD i 0 ≠ 0 := of_decide_eq_true hvi
        have hv1 : values.getD i 0 = 1 := by
          rcases getD_zero_or_one hv i with h | h
          · exact absurd h hvi'
          · exact h
        have henum : (i, p) ∈ positions.enum :=
          (mem_pos_indices_iff positions p i).mp (hfor ▸ hi)
        have hget : positions.get? i = some p := List.mk_mem_enum_iff_get?.mp henum
        obtain ⟨hlt, hgeteq⟩ := List.get?_eq_some.mp hget
        refine ⟨i, hlt, ?_, hv1⟩
        rw [List.getD_eq_getD_get? positions 0 i, hget]
        rfl
      · rw [if_neg hc] at h1
        simp at h1
    · rintro ⟨i, hlt, hpos, hval⟩
      have hget : positions.get? i = some p := by
        have hs : ∃ a, positions.get? i = some a := by
          rw [List.get?_eq_get hlt]
          exact ⟨_, rfl⟩
        obtain ⟨a, ha⟩ := hs
        have h2 : positions.getD i 0 = a := by
          rw [List.getD_eq_getD_get? positions 0 i, ha]
          rfl
        rw [ha, h2.symm.trans hpos]
      have hi : i ∈ idxs := by
        rw [← hfor]
        exact (mem_pos_indices_iff positions p i).mpr
          (List.mk_mem_enum_iff_get?.mpr hget)
      have hc : idxs.any (fun i => decide (values.getD i 0 ≠ 0)) = true :=
        List.any_eq_true.mpr ⟨i, hi, decide_eq_true (by rw [hval]; exact one_ne_zero)⟩
      rw [if_pos hc]

/-- Take the first option that is `some`, as chained dict lookups do. -/
def oor {α : Type} : Option α → Option α → Option α
  | some v, _ => some v
  | none, y => y

theorem alookup_dinsert {κ α : Type} [DecidableEq κ] (k g : κ) (v : α)
    (acc : List (κ × α)) :
    alookup g (dinsert k v acc) = if k = g then some v else alookup g acc := by
  induction acc with
  | nil =>
    by_cases h : k = g <;> simp [dinsert, alookup, h]
  | cons kv rest ih =>
    by_cases h1 : kv.1 = k
    · rw [dinsert, if_pos h1]
      by_cases h2 : k = g
      · subst h2
        simp [alookup]
      · have h3 : kv.1 ≠ g := by rw [h1]; exact h2
        simp [alookup, h2, h3]
    · rw [dinsert, if_neg h1]
      by_cases h2 : kv.1 = g
      · have h3 : ¬ k = g := by rw [← h2]; exact fun hc => h1 hc.symm
        simp [alookup, h2, h3]
      · simp only [alookup, h2, if_false, ih]

theorem alookup_append_oor {κ α : Type} [DecidableEq κ] (k : κ)
    (l1 l2 : List (κ × α)) :
    alookup k (l1 ++ l2) = oor (alookup k l1) (alookup k l2) := by
  induction l1 with
  | nil => simp [alookup, oor]
  | cons kv rest ih =>
    rw [List.cons_append, alookup, alookup]
    by_cases h : kv.1 = k
    · simp [h, oor]
    · simp [h, ih]

theorem alookup_foldl_dinsert {κ α : Type} [DecidableEq κ] (l : List (κ × α)) :
    ∀ (acc : List (κ × α)) (k : κ),
      alookup k (l.foldl (fun a kv => dinsert kv.1 kv.2 a) acc) =
        oor (alookup k l.reverse) (alookup k acc) := by
  induction l with
  | nil => intro acc k; simp [alookup, oor]
  | cons kv rest ih =>
    intro acc k
    rw [List.foldl_cons, ih, List.reverse_cons, alookup_append_oor,
      alookup_dinsert]
    cases hx : alookup k rest.reverse with
    | some v => simp [oor]
    | none =>
      simp only [oor]
      by_cases h : kv.1 = k <;> simp [alookup, h, oor]

/-- The per-sample mapping builder of `SNPMatching.main` (line 43),
`dict(zip(positions, values))`: bindings are inserted left to right with
overwriting, so a duplicated header position keeps the call of its last
column. -/
def zip_record (positions values : List Int) : GenoRecord :=
  (positions.zip values).foldl (fun acc pv => dinsert pv.1 pv.2 acc) []

theorem alookup_zip_record (positions values : List Int) (p : Int) :
    alookup p (zip_record positions values) =
      alookup p ((positions.zip values).reverse) := by
  rw [zip_record, alookup_foldl_dinsert]
  cases alookup p ((positions.zip values).reverse) <;> simp [oor, alookup]

theorem dinsert_keys {κ α : Type} [DecidableEq κ] (k : κ) (v : α)
    (acc : List (κ × α)) :
    (dinsert k v acc).map Prod.fst =
      if k ∈ acc.map Prod.fst then acc.map Prod.fst
      else acc.map Prod.fst ++ [k] := by
  induction acc with
  | nil => simp [dinsert]
  | cons kv rest ih =>
    rw [dinsert]
    by_cases h1 : kv.1 = k
    · simp [h1]
    · have h1' : k ≠ kv.1 := fun hc => h1 hc.symm
      by_cases h2 : k ∈ rest.map Prod.fst <;>
        simp [h1, h1', h2, ih]

theorem dinsert_keys_nodup {κ α : Type} [DecidableEq κ] (k : κ) (v : α)
    {acc : List (κ × α)} (h : (acc.map Prod.fst).Nodup) :
    ((dinsert k v acc).map Prod.fst).Nodup := by
  rw [dinsert_keys]
  split
  · exact h
  · rename_i hk
    simp [List.nodup_append, h, hk]

theorem foldl_dinsert_keys_nodup {κ α : Type} [DecidableEq κ]
    (l : List (κ × α)) :
    ∀ acc : List (κ × α), (acc.map Prod.fst).Nodup →
      ((l.foldl (fun a kv => dinsert kv.1 kv.2 a) acc).map Prod.fst).Nodup := by
  induction l with
  | nil => intro acc h; simpa using h
  | cons kv rest ih =>
    intro acc h
    rw [List.foldl_cons]
    exact ih _ (dinsert_keys_nodup _ _ h)

theorem foldl_dinsert_keys_mem {κ α : Type} [DecidableEq κ]
    (l : List (κ × α)) :
    ∀ (acc : List (κ × α)) (g : κ),
      g ∈ (l.foldl (fun a kv => dinsert kv.1 kv.2 a) acc).map Prod.fst ↔
        g ∈ acc.map Prod.fst ∨ g ∈ l.map Prod.fst := by
  induction l with
  | nil => intro acc g; simp
  | cons kv rest ih =>
    intro acc g
    rw [List.foldl_cons, ih, dinsert_keys]
    by_cases h : kv.1 ∈ acc.map Prod.fst <;>
      simp only [h, if_true, if_false, List.mem_append, List.map_cons,
        List.mem_cons, List.mem_singleton] <;>
      constructor <;> intro hc
    · tauto
    · rcases hc with hc | hc | hc
      · tauto
      · subst hc; tauto
      · tauto
    · tauto
    · rcases hc with hc | hc | hc
      · tauto
      · subst hc; tauto
      · tauto

theorem zip_record_keys_occ (positions values : List Int) (p : Int)
    (hp : p ∈ positions) (hlen : values.length = positions.length) :
    occ p ((zip_record positions values).map Prod.fst) = 1 := by
  have hmem : p ∈ (positions.zip values).map Prod.fst := by
    rw [List.map_fst_zip positions values (le_of_eq hlen.symm)]
    exact hp
  have hnodup : ((zip_record positions values).map Prod.fst).Nodup := by
    rw [zip_record]
    exact foldl_dinsert_keys_nodup _ [] (by simp)
  have hkmem : p ∈ (zip_record positions values).map Prod.fst := by
    rw [zip_record]
    exact (foldl_dinsert_keys_mem _ [] p).mpr (Or.inr hmem)
  exact occ_nodup hnodup hkmem

/-- Counterexample to C4 as stated: `SNPMatching.main` (line 43) builds the
per-sample mapping with `dict(zip(positions, values))`; for header
`[10, 10, 20]` and calls `[1, 0, 0]` the duplicated position 10 gets call 0
(the last duplicate column wins) although a duplicate column carries the
positive call 1, so the merged call is not the logical OR there. -/
theorem C4_counterexample :
    alookup (10 : Int) (zip_record [10, 10, 20] [1, 0, 0]) = some 0 ∧
    (∃ i, i < ([10, 10, 20] : List Int).length ∧
      ([10, 10, 20] : List Int).getD i 0 = 10 ∧
      ([1, 0, 0] : List Int).getD i 0 = 1) ∧
    ((0 : Int) ≠ 1) :=
  ⟨by decide, ⟨0, by decide, by decide, by decide⟩, by decide⟩

/-- C4 amended: for a duplicated header position, each reader's per-sample
mapping has exactly one entry for the position; `matching.py`'s reader
merges the duplicate columns' calls with logical OR (call 1 iff some
duplicate column carries call 1, e.g. [0,1] merges to 1 and [0,0] to 0),
while `SNPMatching.py`'s reader, built with `dict(zip(positions, values))`,
keeps the call of the last duplicate column (calls [1,0] give 0). -/
theorem C4_duplicate_merge_both_readers :
    ∀ (positions values : List Int) (p : Int),
      p ∈ positions → (∀ v ∈ values, v = 0 ∨ v = 1) →
      (occ p ((merged_record positions values).map Prod.fst) = 1 ∧
        (alookup p (merged_record positions values) = some 1 ∨
         alookup p (merged_record positions values) = some 0) ∧
        (alookup p (merged_record positions values) = some 1 ↔
          ∃ i, i < positions.length ∧ positions.getD i 0 = p ∧
            values.getD i 0 = 1)) ∧
      (values.length = positions.length →
        occ p ((zip_record positions values).map Prod.fst) = 1 ∧
        alookup p (zip_record positions values) =
          alookup p ((positions.zip values).reverse)) := by
  intro positions values p hp hv
  refine ⟨merged_record_or positions values p hp hv, fun hlen => ⟨?_, ?_⟩⟩
  · exact zip_record_keys_occ positions values p hp hlen
  · exact alookup_zip_record positions values p

/-- Witness for the amended C4 at header `[10, 10, 20]`, calls `[1, 0, 0]`:
the OR-merging reader stores call 1 for position 10 and the zip-based reader
stores the last column's call. -/
theorem C4_amended_witness :
    ((10 : Int) ∈ ([10, 10, 20] : List Int) ∧
      (∀ v ∈ ([1, 0, 0] : List Int), v = 0 ∨ v = 1)) ∧
    ((occ (10 : Int) ((merged_record [10, 10, 20] [1, 0, 0]).map Prod.fst) = 1 ∧
        (alookup (10 : Int) (merged_record [10, 10, 20] [1, 0, 0]) = some 1 ∨
         alookup (10 : Int) (merged_record [10, 10, 20] [1, 0, 0]) = some 0) ∧
        (alookup (10 : Int) (merged_record [10, 10, 20] [1, 0, 0]) = some 1 ↔
          ∃ i, i < ([10, 10, 20] : List Int).length ∧
            ([10, 10, 20] : List Int).getD i 0 = 10 ∧
            ([1, 0, 0] : List Int).getD i 0 = 1)) ∧
      (([1, 0, 0] : List Int).length = ([10, 10, 20] : List Int).length →
        occ (10 : Int) ((zip_record [10, 10, 20] [1, 0, 0]).map Prod.fst) = 1 ∧
        alookup (10 : Int) (zip_record [10, 10, 20] [1, 0, 0]) =
          alookup (10 : Int) ((([10, 10, 20] : List Int).zip
            ([1, 0, 0] : List Int)).reverse))) :=
  ⟨⟨by decide, by decide⟩,
    C4_duplicate_merge_both_readers [10, 10, 20] [1, 0, 0] 10
      (by decide) (by decide)⟩

/-! ## Claim C5 -/

theorem parse_header_error_iff (line hdr : String) :
    (∃ e, parse_header line hdr = Except.error e) ↔
      pyLower ((tokenize line).headD "") ≠ pyLower hdr ∨
        (tokenize line).tail.mapM pyParseInt = none := by
  rw [parse_header]
  by_cases hc : pyLower ((tokenize line).headD "") ≠ pyLower hdr
  · rw [if_pos hc]
    exact ⟨fun _ => Or.inl hc, fun _ => ⟨_, rfl⟩⟩
  · rw [if_neg hc]
    cases hm : (tokenize line).tail.mapM pyParseInt with
    | none =>
      exact ⟨fun _ => Or.inr rfl, fun _ => ⟨_, rfl⟩⟩
    | some positions =>
      constructor
      · rintro ⟨e, he⟩
        have he' : (Except.ok positions : Except String (List Int))
            = Except.error e := he
        cases he'
      · rintro (h | h)
        · exact absurd h hc
        · cases h

/-- Counterexample to C5 as stated: a file whose columns are exactly the
three required ones (fewer than the nine `usecols=range(9)` demands) makes
the extractor fail even though no required column is absent. -/
theorem C5_counterexample :
    (∃ e, read_recombinant_file ⟨["L1", "L2", "CIhi"], []⟩ none
        = Except.error e) ∧
    "L1" ∈ (["L1", "L2", "CIhi"] : List String) ∧
    "L2" ∈ (["L1", "L2", "CIhi"] : List String) ∧
    "CIhi" ∈ (["L1", "L2", "CIhi"] : List String) :=
  ⟨⟨"Usecols do not match columns, columns expected but not found", rfl⟩,
    by decide, by decide, by decide⟩

/-- C5 amended: the genotype-table builder fails exactly when the input is
empty, the header's first token does not case-insensitively equal the
expected label, or a header position fails to parse as an integer; the
pair-list extractor fails exactly when the file has fewer than nine columns
(the `usecols=range(9)` read) or one of the required columns L1, L2, CIhi
is absent from the first nine; and the pipeline fails exactly when one of
the two parsers fails, so every fatal error arises at parsing, before any
matching. -/
theorem C5_amended_parse_errors :
    (∀ (lines : List String) (hdr : String),
      (∃ e, read_ped_file lines hdr = Except.error e) ↔
        (lines = [] ∨ ∃ first rest, lines = first :: rest ∧
          (pyLower ((tokenize first).headD "") ≠ pyLower hdr ∨
            (tokenize first).tail.mapM pyParseInt = none))) ∧
    (∀ (tbl : LDTable) (t : Option ℚ),
      (∃ e, read_recombinant_file tbl t = Except.error e) ↔
        (tbl.columns.length < 9 ∨
          ¬ ("L1" ∈ tbl.columns.take 9 ∧ "L2" ∈ tbl.columns.take 9 ∧
            "CIhi" ∈ tbl.columns.take 9))) ∧
    (∀ (pedLines : List String) (tbl : LDTable) (t : Option ℚ)
        (pt : Option (List (String × String))),
      (∃ e, pipeline pedLines tbl t pt = Except.error e) ↔
        ((∃ e, read_ped_file pedLines "Position" = Except.error e) ∨
          (∃ e, read_recombinant_file tbl t = Except.error e))) := by
  refine ⟨?_, ?_, ?_⟩
  · intro lines hdr
    cases lines with
    | nil => simp [read_ped_file]
    | cons first rest =>
      cases hph : parse_header first hdr with
      | error e =>
        simp only [read_ped_file, hph]
        constructor
        · intro _
          refine Or.inr ⟨first, rest, rfl, ?_⟩
          exact (parse_header_error_iff first hdr).mp ⟨e, hph⟩
        · intro _
          exact ⟨e, rfl⟩
      | ok positions =>
        simp only [read_ped_file, hph]
        constructor
        · rintro ⟨e, he⟩
          cases he
        · rintro (h | ⟨first', rest', heq, hbad⟩)
          · cases h
          · exfalso
            obtain ⟨h1, _⟩ := List.cons.injEq .. ▸ heq
            have : ∃ e, parse_header first hdr = Except.error e := by
              apply (parse_header_error_iff first hdr).mpr
              rw [List.cons_eq_cons] at heq
              rw [heq.1]
              exact hbad
            obtain ⟨e, he⟩ := this
            rw [hph] at he
            cases he
  · intro tbl t
    by_cases h9 : tbl.columns.length < 9
    · simp [read_recombinant_file, h9]
    · by_cases hc : "L1" ∈ tbl.columns.take 9 ∧ "L2" ∈ tbl.columns.take 9 ∧
          "CIhi" ∈ tbl.columns.take 9
      · simp [read_recombinant_file, h9, hc]
      · simp [read_recombinant_file, h9, hc]
  · intro pedLines tbl t pt
    cases hp : read_ped_file pedLines "Position" with
    | error e => simp [pipeline, hp]
    | ok sd =>
      cases hr : read_recombinant_file tbl t with
      | error e => simp [pipeline, hp, hr]
      | ok ps => simp [pipeline, hp, hr]

/-! ## Claim C6 -/

/-- C6: a data line whose token count is not one more than the number of
header positions, or whose call tokens do not all parse as integers, is
skipped: the table built from the file equals the table built with that line
removed, so the line contributes no entry and all other lines are processed
unchanged. -/
theorem C6_malformed_line_skipped :
    ∀ (hline hdr : String) (positions : List Int) (pre suf : List String)
      (bad : String),
      parse_header hline hdr = Except.ok positions →
      ((tokenize bad).length ≠ positions.length + 1 ∨
        (tokenize bad).tail.mapM pyParseInt = none) →
      read_ped_file (hline :: (pre ++ bad :: suf)) hdr =
        read_ped_file (hline :: (pre ++ suf)) hdr := by
  intro hline hdr positions pre suf bad hph hbad
  have hskip : ∀ sd, process_line positions sd bad = sd := by
    intro sd
    simp only [process_line]
    rcases hbad with h | h
    · rw [if_pos h]
    · by_cases hl : (tokenize bad).length ≠ positions.length + 1
      · rw [if_pos hl]
      · rw [if_neg hl, h]
  simp only [read_ped_file, hph]
  rw [List.foldl_append, List.foldl_append, List.foldl_cons, hskip]

/-- Witness for C6: the malformed line `B 1` (two tokens against a
two-position header) is skipped from a concrete four-line file. -/
theorem C6_witness :
    (parse_header "Position 10 20" "Position" = Except.ok [10, 20] ∧
      ((tokenize "B 1").length ≠ ([10, 20] : List Int).length + 1 ∨
        (tokenize "B 1").tail.mapM pyParseInt = none)) ∧
    read_ped_file ["Position 10 20", "A 1 0", "B 1", "C 0 1"] "Position" =
      read_ped_file ["Position 10 20", "A 1 0", "C 0 1"] "Position" :=
  ⟨⟨by rfl, Or.inl (by decide)⟩,
    C6_malformed_line_skipped "Position 10 20" "Position" [10, 20]
      ["A 1 0"] ["C 0 1"] "B 1" (by rfl) (Or.inl (by decide))⟩

/-! ## Claim C7 -/

/-- The contribution of one LD row to the output: the pair it yields, or
`none` when the row is skipped (unparseable fields, or filtered out). -/
def ld_keep (t : Option ℚ) (row : List (String × Option ℚ)) : Option (Int × Int) :=
  match getCell row "L1", getCell row "L2", getCell row "CIhi" with
  | some q1, some q2, some qc =>
    match t with
    | some f => if f ≠ 0 ∧ qc < f then none else some (truncInt q1, truncInt q2)
    | none => some (truncInt q1, truncInt q2)
  | _, _, _ => none

theorem ld_row_step_eq (t : Option ℚ) (acc : List (Int × Int))
    (row : List (String × Option ℚ)) :
    ld_row_step t acc row = acc ++ (ld_keep t row).toList := by
  rw [ld_row_step, ld_keep]
  cases getCell row "L1" with
  | none => simp
  | some q1 =>
    cases getCell row "L2" with
    | none => simp
    | some q2 =>
      cases getCell row "CIhi" with
      | none => simp
      | some qc =>
        cases t with
        | none => simp
        | some f =>
          show (if f ≠ 0 ∧ qc < f then acc else acc ++ [(truncInt q1, truncInt q2)]) =
            acc ++ (if f ≠ 0 ∧ qc < f then none
                    else some (truncInt q1, truncInt q2)).toList
          by_cases h : f ≠ 0 ∧ qc < f
          · rw [if_pos h, if_pos h]
            simp
          · rw [if_neg h, if_neg h]
            simp

theorem ld_foldl_eq (t : Option ℚ) (rows : List (List (String × Option ℚ))) :
    ∀ acc, rows.foldl (ld_row_step t) acc = acc ++ rows.filterMap (ld_keep t) := by
  induction rows with
  | nil => intro acc; simp
  | cons row rest ih =>
    intro acc
    rw [List.foldl_cons, ih, ld_row_step_eq, List.filterMap_cons]
    cases ld_keep t row <;> simp

/-- Keep rule in the words of the amended claim: a parseable row is kept
when no threshold is supplied or the supplied threshold is zero; under a
nonzero threshold it is kept exactly when its confidence bound is not below
the threshold. -/
def spec_kept_pair (t : Option ℚ) (row : List (String × Option ℚ)) :
    Option (Int × Int) :=
  match getCell row "L1", getCell row "L2", getCell row "CIhi" with
  | some q1, some q2, some qc =>
    match t with
    | none => some (truncInt q1, truncInt q2)
    | some f => if f = 0 ∨ f ≤ qc then some (truncInt q1, truncInt q2) else none
  | _, _, _ => none

theorem ld_keep_eq_spec (t : Option ℚ) (row : List (String × Option ℚ)) :
    ld_keep t row = spec_kept_pair t row := by
  rw [ld_keep, spec_kept_pair]
  cases getCell row "L1" with
  | none => rfl
  | some q1 =>
    cases getCell row "L2" with
    | none => rfl
    | some q2 =>
      cases getCell row "CIhi" with
      | none => rfl
      | some qc =>
        cases t with
        | none => rfl
        | some f =>
          show (if f ≠ 0 ∧ qc < f then none else some (truncInt q1, truncInt q2)) =
            (if f = 0 ∨ f ≤ qc then some (truncInt q1, truncInt q2) else none)
          by_cases hf : f = 0
          · rw [if_neg (by simp [hf]), if_pos (Or.inl hf)]
          · by_cases hlt : qc < f
            · rw [if_pos ⟨hf, hlt⟩, if_neg ?_]
              rintro (h | h)
              · exact hf h
              · exact absurd hlt (not_lt.mpr h)
            · rw [if_neg (fun hc => hlt hc.2), if_pos (Or.inr (not_lt.mp hlt))]

/-- Counterexample to C7 as stated: with threshold 0 supplied, the Python
truthiness test `if CIHi_filter and ...` disables filtering, so a row whose
bound −1 is below the threshold 0 is still kept. -/
theorem C7_counterexample :
    read_recombinant_file
        ⟨["L1", "L2", "CIhi", "X1", "X2", "X3", "X4", "X5", "X6"],
          [[("L1", some 1), ("L2", some 2), ("CIhi", some (-1))]]⟩
        (some 0) = Except.ok [(1, 2)] ∧ ((-1 : ℚ) < 0) := by
  constructor
  · rfl
  · norm_num

/-- C7 amended: when the file has at least nine columns and the required
columns are among the first nine, the extractor returns exactly, in input
row order with duplicates retained, the pairs of rows whose fields parse and
which pass the threshold, where a threshold of zero behaves like no
threshold and a nonzero threshold excludes exactly the rows whose bound is
below it. -/
theorem C7_amended_filter :
    ∀ (tbl : LDTable) (t : Option ℚ),
      9 ≤ tbl.columns.length →
      ("L1" ∈ tbl.columns.take 9 ∧ "L2" ∈ tbl.columns.take 9 ∧
        "CIhi" ∈ tbl.columns.take 9) →
      read_recombinant_file tbl t =
        Except.ok (tbl.rows.filterMap (spec_kept_pair t)) := by
  intro tbl t h9 hcols
  rw [read_recombinant_file, if_neg (not_lt.mpr h9), if_pos hcols,
    ld_foldl_eq, List.nil_append]
  exact congrArg Except.ok
    (congrArg (fun f => List.filterMap f tbl.rows)
      (funext fun row => ld_keep_eq_spec t row))

/-- Witness for the amended C7: a nine-column, two-row table under threshold
1 keeps the row with bound 2 and drops the row with bound 1/2. -/
theorem C7_amended_witness :
    (9 ≤ (["L1", "L2", "CIhi", "X1", "X2", "X3", "X4", "X5", "X6"] :
        List String).length ∧
      ("L1" ∈ (["L1", "L2", "CIhi", "X1", "X2", "X3", "X4", "X5", "X6"] :
          List String).take 9 ∧
        "L2" ∈ (["L1", "L2", "CIhi", "X1", "X2", "X3", "X4", "X5", "X6"] :
          List String).take 9 ∧
        "CIhi" ∈ (["L1", "L2", "CIhi", "X1", "X2", "X3", "X4", "X5", "X6"] :
          List String).take 9)) ∧
    read_recombinant_file
        ⟨["L1", "L2", "CIhi", "X1", "X2", "X3", "X4", "X5", "X6"],
          [[("L1", some 3), ("L2", some 4), ("CIhi", some 2)],
           [("L1", some 5), ("L2", some 6), ("CIhi", some (1/2))]]⟩
        (some 1) =
      Except.ok
        (([[("L1", some 3), ("L2", some 4), ("CIhi", some 2)],
           [("L1", some 5), ("L2", some 6), ("CIhi", some (1/2))]] :
            List (List (String × Option ℚ))).filterMap (spec_kept_pair (some 1))) :=
  ⟨⟨by decide, by decide⟩,
    C7_amended_filter
      ⟨["L1", "L2", "CIhi", "X1", "X2", "X3", "X4", "X5", "X6"],
        [[("L1", some 3), ("L2", some 4), ("CIhi", some 2)],
         [("L1", some 5), ("L2", some 6), ("CIhi", some (1/2))]]⟩
      (some 1) (by decide) (by decide)⟩

/-! ## Claim C2 -/

theorem alookup_mem_keys {κ α : Type} [DecidableEq κ] {k : κ} {v : α}
    {l : List (κ × α)} (h : alookup k l = some v) : k ∈ l.map Prod.fst := by
  have hmem : ((k, v) : κ × α).1 ∈ l.map Prod.fst :=
    List.mem_map_of_mem Prod.fst (alookup_mem h)
  exact hmem

theorem mem_own_group {stp : List (String × List (Int × Int))} {s : String}
    {ms : List (Int × Int)} (hs : alookup s stp = some ms) :
    s ∈ listFor ms (pairs_to_samples stp) := by
  rw [pairs_to_samples, groupFold_listFor]
  refine List.mem_map.mpr ⟨(ms, s), List.mem_filter.mpr ⟨?_, by simp⟩, rfl⟩
  exact List.mem_map_of_mem (fun sp => (sp.2, sp.1)) (alookup_mem hs)

theorem group_key_of_mem {stp : List (String × List (Int × Int))}
    (hnd : (stp.map Prod.fst).Nodup) {gl : List (Int × Int) × List String}
    (hgl : gl ∈ pairs_to_samples stp) {s : String} (hs : s ∈ gl.2) :
    alookup s stp = some gl.1 := by
  have hl : alookup gl.1 (pairs_to_samples stp) = some gl.2 :=
    mem_alookup (groupFold_keys_nodup _) hgl
  have hval : gl.2 = ((stp.map (fun sp => (sp.2, sp.1))).filter
      (fun it => decide (it.1 = gl.1))).map Prod.snd := by
    have h2 := groupFold_listFor (stp.map (fun sp => (sp.2, sp.1))) gl.1
    rw [listFor] at h2
    rw [pairs_to_samples] at hl
    rw [hl] at h2
    exact h2
  rw [hval] at hs
  obtain ⟨it, hit, hits⟩ := List.mem_map.mp hs
  obtain ⟨hitem, hkey⟩ := List.mem_filter.mp hit
  obtain ⟨sp, hsp, hspit⟩ := List.mem_map.mp hitem
  obtain ⟨a, b⟩ := sp
  subst hspit
  simp only at hits hkey
  have hk : b = gl.1 := of_decide_eq_true hkey
  subst hits
  subst hk
  exact mem_alookup hnd hsp

theorem group_entry {stp : List (String × List (Int × Int))} {s : String}
    {ms : List (Int × Int)} (hs : alookup s stp = some ms) :
    ∃ L, alookup ms (pairs_to_samples stp) = some L ∧ s ∈ L := by
  have h1 := mem_own_group hs
  rw [listFor] at h1
  cases hl : alookup ms (pairs_to_samples stp) with
  | none =>
    rw [hl] at h1
    simp at h1
  | some L =>
    rw [hl] at h1
    exact ⟨L, rfl, h1⟩

/-- C2: the grouping of `summarize_matches` is an equivalence partition:
every sample of the input occupies exactly one summary row and exactly one
group, two samples share a group iff their match-sets are equal, and in
particular two samples with empty match-sets share a group. -/
theorem C2_grouping_is_partition :
    ∀ (stp : List (String × List (Int × Int)))
      (pt : Option (List (String × String))) (s t : String)
      (ms mt : List (Int × Int)),
      (stp.map Prod.fst).Nodup →
      alookup s stp = some ms → alookup t stp = some mt →
      ((summarize_matches stp pt).filter (fun r => decide (r.sample = s))).length
          = 1 ∧
      (∃! gl : List (Int × Int) × List String,
        gl ∈ pairs_to_samples stp ∧ s ∈ gl.2) ∧
      ((∃ gl ∈ pairs_to_samples stp, s ∈ gl.2 ∧ t ∈ gl.2) ↔ ms = mt) ∧
      (ms = [] → mt = [] → ∃ gl ∈ pairs_to_samples stp, s ∈ gl.2 ∧ t ∈ gl.2) := by
  intro stp pt s t ms mt hnd hs ht
  obtain ⟨L, hL, hsL⟩ := group_entry hs
  have hsame : ∀ gl : List (Int × Int) × List String,
      gl ∈ pairs_to_samples stp → s ∈ gl.2 → gl = (ms, L) := by
    intro gl hgl hsgl
    have h1 : alookup s stp = some gl.1 := group_key_of_mem hnd hgl hsgl
    have hk : gl.1 = ms := by
      rw [h1] at hs
      exact (Option.some.injEq .. ▸ hs)
    have h2 : alookup gl.1 (pairs_to_samples stp) = some gl.2 :=
      mem_alookup (groupFold_keys_nodup _) hgl
    rw [hk, hL] at h2
    have h3 : gl.2 = L := (Option.some.injEq .. ▸ h2).symm
    exact Prod.ext hk h3
  refine ⟨?_, ?_, ?_, ?_⟩
  · have h1 : ((summarize_matches stp pt).filter
        (fun r => decide (r.sample = s))).length =
        occ s (flattenVals (pairs_to_samples stp)) :=
      rows_filter_length (mk_summary_row pt) (fun r => r.sample)
        (fun gl x => rfl) (pairs_to_samples stp) s
    have h2 : occ s (flattenVals (pairs_to_samples stp)) =
        occ s ((stp.map (fun sp => (sp.2, sp.1))).map Prod.snd) :=
      groupFold_occ s _
    have h3 : (stp.map (fun sp => (sp.2, sp.1))).map Prod.snd =
        stp.map Prod.fst := by
      rw [List.map_map]
      rfl
    rw [h1, h2, h3]
    exact occ_nodup hnd (alookup_mem_keys hs)
  · refine ⟨(ms, L), ⟨alookup_mem hL, hsL⟩, ?_⟩
    intro gl hgl
    exact hsame gl hgl.1 hgl.2
  · constructor
    · rintro ⟨gl, hgl, hsgl, htgl⟩
      have h1 : alookup s stp = some gl.1 := group_key_of_mem hnd hgl hsgl
      have h2 : alookup t stp = some gl.1 := group_key_of_mem hnd hgl htgl
      rw [hs] at h1
      rw [ht] at h2
      exact (Option.some.inj h1).trans (Option.some.inj h2).symm
    · intro hmseq
      refine ⟨(ms, L), alookup_mem hL, hsL, ?_⟩
      have h1 := mem_own_group ht
      rw [← hmseq, listFor, hL] at h1
      exact h1
  · intro hms hmt
    refine ⟨(ms, L), alookup_mem hL, hsL, ?_⟩
    have h1 := mem_own_group ht
    rw [hmt, ← hms, listFor, hL] at h1
    exact h1

/-- Witness for C2 at a concrete two-sample table where both samples have
the empty match-set. -/
theorem C2_witness :
    ((([("A", []), ("B", [])] : List (String × List (Int × Int))).map
        Prod.fst).Nodup ∧
      alookup "A" ([("A", []), ("B", [])] : List (String × List (Int × Int)))
        = some [] ∧
      alookup "B" ([("A", []), ("B", [])] : List (String × List (Int × Int)))
        = some []) ∧
    (((summarize_matches [("A", []), ("B", [])] none).filter
        (fun r => decide (r.sample = "A"))).length = 1 ∧
      (∃! gl : List (Int × Int) × List String,
        gl ∈ pairs_to_samples [("A", []), ("B", [])] ∧ "A" ∈ gl.2) ∧
      ((∃ gl ∈ pairs_to_samples [("A", []), ("B", [])],
          "A" ∈ gl.2 ∧ "B" ∈ gl.2) ↔ ([] : List (Int × Int)) = []) ∧
      (([] : List (Int × Int)) = [] → ([] : List (Int × Int)) = [] →
        ∃ gl ∈ pairs_to_samples [("A", []), ("B", [])],
          "A" ∈ gl.2 ∧ "B" ∈ gl.2)) :=
  ⟨⟨by decide, by decide, by decide⟩,
    C2_grouping_is_partition [("A", []), ("B", [])] none "A" "B" [] []
      (by decide) (by decide) (by decide)⟩

/-! ## Claim C3 -/

/-- Counterexample to C3 as stated: in a two-sample group the row of sample
`A` carries `Shared With` text `"A, B"`, which contains `A`'s own name and is
not the peer-only list `"B"` the claim requires. -/
theorem C3_counterexample :
    ((summarize_matches [("A", []), ("B", [])] none).map
        (fun r => (r.sample, r.sharedWith)))
      = [("A", "A, B"), ("B", "A, B")] ∧
    ("A, B" : String) ≠ "B" := by
  constructor
  · rfl
  · decide

/-- C3 amended: a sample's `Shared With` field is empty when its group has
exactly one member, and otherwise is the comma-joined list of ALL the sample
names in its group, the sample's own name included. -/
theorem C3_shared_with_whole_group :
    ∀ (stp : List (String × List (Int × Int)))
      (pt : Option (List (String × String))) (s : String)
      (ms : List (Int × Int)),
      (stp.map Prod.fst).Nodup → alookup s stp = some ms →
      (∃ r ∈ summarize_matches stp pt, r.sample = s) ∧
      (∀ r ∈ summarize_matches stp pt, r.sample = s →
        r.sharedWith =
          (if (listFor ms (pairs_to_samples stp)).length = 1 then ""
           else String.intercalate ", " (listFor ms (pairs_to_samples stp)))) := by
  intro stp pt s ms hnd hs
  obtain ⟨L, hL, hsL⟩ := group_entry hs
  constructor
  · apply (rows_mem_sample (mk_summary_row pt) (fun r => r.sample)
      (fun gl x => rfl) (pairs_to_samples stp) s).mpr
    exact ⟨(ms, L), alookup_mem hL, hsL⟩
  · intro r hr hrs
    rw [summarize_matches] at hr
    obtain ⟨gl, hgl, hrg⟩ := List.mem_flatMap.mp hr
    obtain ⟨x, hx, hxr⟩ := List.mem_map.mp hrg
    have hxs : x = s := by
      rw [← hxr] at hrs
      exact hrs
    subst hxs
    have hk : gl.1 = ms := by
      have h1 := group_key_of_mem hnd hgl hx
      rw [hs] at h1
      exact (Option.some.inj h1).symm
    have h2 : alookup ms (pairs_to_samples stp) = some gl.2 := by
      have h3 := mem_alookup (groupFold_keys_nodup
        (stp.map (fun sp => (sp.2, sp.1)))) hgl
      rw [hk] at h3
      exact h3
    have h3 : listFor ms (pairs_to_samples stp) = gl.2 := by
      rw [listFor, h2]
      rfl
    rw [← hxr]
    show (if gl.2.length = 1 then "" else String.intercalate ", " gl.2) = _
    rw [h3]

/-- Witness for the amended C3 at the two-sample zero-match table. -/
theorem C3_amended_witness :
    ((([("A", []), ("B", [])] : List (String × List (Int × Int))).map
        Prod.fst).Nodup ∧
      alookup "A" ([("A", []), ("B", [])] : List (String × List (Int × Int)))
        = some []) ∧
    ((∃ r ∈ summarize_matches [("A", []), ("B", [])] none, r.sample = "A") ∧
      (∀ r ∈ summarize_matches [("A", []), ("B", [])] none, r.sample = "A" →
        r.sharedWith =
          (if (listFor [] (pairs_to_samples [("A", []), ("B", [])])).length = 1
           then ""
           else String.intercalate ", "
             (listFor [] (pairs_to_samples [("A", []), ("B", [])]))))) :=
  ⟨⟨by decide, by decide⟩,
    C3_shared_with_whole_group [("A", []), ("B", [])] none "A" []
      (by decide) (by decide)⟩

/-! ## Claim C9 -/

/-- C9: in the standalone SNPMatching entry point, a sample name appears in
the `sample_to_pairs` mapping and in the output rows iff it is a sample of
the parsed table that starts with `Sample` followed by an integer between 1
and 213 inclusive; every other parsed sample is absent from all rows. -/
theorem C9_sample_gate :
    ∀ (sd : SampleData) (pairs : List (Int × Int)) (s : String),
      ((∃ r ∈ snp_rows sd pairs, r.sample = s) ↔
        (s ∈ sd.map Prod.fst ∧ snp_filter s = true)) ∧
      ((s ∈ (snp_sample_to_pairs sd pairs).map Prod.fst) ↔
        (s ∈ sd.map Prod.fst ∧ snp_filter s = true)) := by
  intro sd pairs s
  have hkeys : (snp_sample_to_pairs sd pairs).map Prod.fst =
      (sortedKeys sd).filter snp_filter := by
    rw [snp_sample_to_pairs, List.map_map]
    exact List.map_id _
  have hkeymem : s ∈ (snp_sample_to_pairs sd pairs).map Prod.fst ↔
      (s ∈ sd.map Prod.fst ∧ snp_filter s = true) := by
    rw [hkeys, List.mem_filter, sortedKeys, (List.perm_insertionSort
      (fun a b : String => a ≤ b) (sd.map Prod.fst)).mem_iff]
  refine ⟨?_, hkeymem⟩
  rw [show snp_rows sd pairs = (pairs_to_samples (snp_sample_to_pairs sd pairs)).flatMap
      (fun gl => gl.2.map (mk_excel_row gl)) from rfl]
  rw [rows_mem_sample mk_excel_row (fun r => r.sample) (fun gl x => rfl)]
  rw [pairs_to_samples, groupFold_exists_val, List.map_map]
  show s ∈ (snp_sample_to_pairs sd pairs).map
      (fun sp => sp.1) ↔ _
  exact hkeymem

/-! ## Claim C8 -/

theorem alookup_perm {κ α : Type} [DecidableEq κ] {l1 l2 : List (κ × α)}
    (hp : l1.Perm l2) (hnd : (l1.map Prod.fst).Nodup) (k : κ) :
    alookup k l1 = alookup k l2 := by
  have hnd2 : (l2.map Prod.fst).Nodup := ((hp.map Prod.fst).nodup_iff).mp hnd
  cases h1 : alookup k l1 with
  | none =>
    have h2 : k ∉ l2.map Prod.fst := by
      intro hc
      exact (alookup_eq_none_iff.mp h1) ((hp.map Prod.fst).mem_iff.mpr hc)
    exact (alookup_eq_none_iff.mpr h2).symm
  | some v =>
    exact (mem_alookup hnd2 (hp.mem_iff.mp (alookup_mem h1))).symm

theorem sortedKeys_perm {sd1 sd2 : SampleData} (hp : sd1.Perm sd2) :
    sortedKeys sd1 = sortedKeys sd2 := by
  rw [sortedKeys, sortedKeys]
  exact List.eq_of_perm_of_sorted
    ((List.perm_insertionSort _ _).trans
      ((hp.map Prod.fst).trans (List.perm_insertionSort _ _).symm))
    (List.sorted_insertionSort _ _) (List.sorted_insertionSort _ _)

/-- C8: the matcher and summarizer are deterministic: on genotype tables
holding the same sample bindings (in any storage order) and the same pair
list, the match-sets, groupings and summary rows come out identical,
including row order. -/
theorem C8_deterministic :
    ∀ (sd1 sd2 : SampleData) (pairs : List (Int × Int))
      (pt : Option (List (String × String))),
      sd1.Perm sd2 → (sd1.map Prod.fst).Nodup →
      find_matching_pairs sd1 pairs = find_matching_pairs sd2 pairs ∧
      summarize_matches (find_matching_pairs sd1 pairs) pt =
        summarize_matches (find_matching_pairs sd2 pairs) pt := by
  intro sd1 sd2 pairs pt hp hnd
  have hmain : find_matching_pairs sd1 pairs = find_matching_pairs sd2 pairs := by
    rw [find_matching_pairs, find_matching_pairs, sortedKeys_perm hp]
    apply List.map_congr_left
    intro n _
    rw [alookup_perm hp hnd n]
  exact ⟨hmain, by rw [hmain]⟩

/-- Witness for C8: the same two samples stored in two different orders give
identical matcher and summarizer output. -/
theorem C8_witness :
    (([("B", [((1 : Int), (1 : Int))]), ("A", [])] : SampleData).Perm
        [("A", []), ("B", [(1, 1)])] ∧
      (([("B", [((1 : Int), (1 : Int))]), ("A", [])] : SampleData).map
        Prod.fst).Nodup) ∧
    (find_matching_pairs [("B", [(1, 1)]), ("A", [])] [(1, 2)] =
        find_matching_pairs [("A", []), ("B", [(1, 1)])] [(1, 2)] ∧
      summarize_matches
          (find_matching_pairs [("B", [(1, 1)]), ("A", [])] [(1, 2)]) none =
        summarize_matches
          (find_matching_pairs [("A", []), ("B", [(1, 1)])] [(1, 2)]) none) :=
  ⟨⟨by decide, by decide⟩,
    C8_deterministic [("B", [(1, 1)]), ("A", [])] [("A", []), ("B", [(1, 1)])]
      [(1, 2)] none (by decide) (by decide)⟩

/-! ## Claim C10 -/

/-- C10: the tree annotator raises an error exactly when some leaf of the
tree has an extractable EPI_ISL identifier that appears in no summary row:
the guarded `None` branch is then taken and its result is dereferenced
unconditionally. -/
theorem C10_color_tree_missing_id_errors :
    ∀ (rows : List SummaryRow) (leaves : List String),
      (∃ e, color_tree rows leaves = Except.error e) ↔
        ∃ leaf ∈ leaves, ∃ id, extract_epi_isl leaf = some id ∧
          ∀ r ∈ rows, ¬ (r.epiIsl = some id) := by
  intro rows leaves
  rw [color_tree]
  induction leaves with
  | nil =>
    constructor
    · rintro ⟨e, he⟩
      cases he
    · rintro ⟨leaf, hmem, _⟩
      simp at hmem
  | cons leaf rest ih =>
    simp only [color_tree_go]
    cases hx : extract_epi_isl leaf with
    | none =>
      cases hgo : color_tree_go rows rest with
      | error e =>
        constructor
        · intro _
          obtain ⟨leaf', hmem, hid⟩ := ih.mp ⟨e, hgo⟩
          exact ⟨leaf', List.mem_cons_of_mem _ hmem, hid⟩
        · intro _
          exact ⟨e, rfl⟩
      | ok out =>
        constructor
        · rintro ⟨e, he⟩
          have he' : (Except.ok ((leaf, none) :: out) :
              Except String (List (String × Option String))) = Except.error e := he
          cases he'
        · rintro ⟨leaf', hmem, id, hid, hall⟩
          rcases List.mem_cons.mp hmem with h | h
          · subst h
            rw [hx] at hid
            cases hid
          · obtain ⟨e, he⟩ := ih.mpr ⟨leaf', h, id, hid, hall⟩
            rw [hgo] at he
            cases he
    | some id =>
      show (∃ e, (match rows.find? (fun r => decide (r.epiIsl = some id)) with
          | none =>
            (Except.error "AttributeError: NoneType has no attribute lower" :
              Except String (List (String × Option String)))
          | some r =>
            (color_tree_go rows rest).map (fun out => (leaf,
              if r.unique.toLower = "yes" then some "&color=#FF0000"
              else none) :: out)) = Except.error e) ↔ _
      cases hf : rows.find? (fun r => decide (r.epiIsl = some id)) with
      | none =>
        constructor
        · intro _
          refine ⟨leaf, List.mem_cons_self _ _, id, hx, ?_⟩
          intro r hr hc
          have h2 := List.find?_eq_none.mp hf r hr
          exact h2 (decide_eq_true hc)
        · intro _
          exact ⟨_, rfl⟩
      | some r0 =>
        cases hgo : color_tree_go rows rest with
        | error e =>
          constructor
          · intro _
            obtain ⟨leaf', hmem, hid⟩ := ih.mp ⟨e, hgo⟩
            exact ⟨leaf', List.mem_cons_of_mem _ hmem, hid⟩
          · intro _
            exact ⟨e, rfl⟩
        | ok out =>
          constructor
          · rintro ⟨e, he⟩
            have he' : (Except.ok ((leaf,
                if r0.unique.toLower = "yes" then some "&color=#FF0000"
                else none) :: out) :
                Except String (List (String × Option String))) = Except.error e := he
            cases he'
          · rintro ⟨leaf', hmem, id', hid', hall⟩
            rcases List.mem_cons.mp hmem with h | h
            · subst h
              rw [hx] at hid'
              have hidid : id' = id := (Option.some.inj hid').symm
              subst hidid
              have hp := List.find?_some hf
              have hp2 : r0.epiIsl = some id' := of_decide_eq_true hp
              exact absurd hp2 (hall r0 (List.mem_of_find?_eq_some hf))
            · obtain ⟨e, he⟩ := ih.mpr ⟨leaf', h, id', hid', hall⟩
              rw [hgo] at he
              cases he
